import Mathlib

/-!
Verification development for the two algorithmic components of the
repository: the priority normalizer (`handleSliderChange` in the
`PrioritySliders` component) and the heuristic text extractor
(`extractMetrics` / `processInitialData` in the OpenAI service module).

The source language is TypeScript.  Numbers are modelled by `JSNum`,
rational numbers extended with the IEEE special values Infinity,
-Infinity and NaN, so that the JavaScript behaviour of division by
zero (which yields Infinity, and never throws) is captured exactly.
Strings are modelled as `List Char` (one element per code point).
-/

namespace Mvp

/-! ### JavaScript number model

A JavaScript number is a double: here modelled as a rational together
with the three special values.  Only the operations used by
`handleSliderChange` are provided.  Rationals stand in for doubles;
every concrete computation appearing below is exact in binary64 as
well, so no rounding divergence is introduced at the inputs used.
-/

inductive JSNum where
  | num (q : ℚ)
  | posInf
  | negInf
  | nan
deriving DecidableEq

namespace JSNum

/-- JavaScript addition (`+`). -/
def add : JSNum → JSNum → JSNum
  | num a, num b => num (a + b)
  | num _, posInf => posInf
  | num _, negInf => negInf
  | posInf, num _ => posInf
  | posInf, posInf => posInf
  | negInf, num _ => negInf
  | negInf, negInf => negInf
  | _, _ => nan

/-- JavaScript subtraction (`-`). -/
def sub : JSNum → JSNum → JSNum
  | num a, num b => num (a - b)
  | num _, posInf => negInf
  | num _, negInf => posInf
  | posInf, num _ => posInf
  | posInf, negInf => posInf
  | negInf, num _ => negInf
  | negInf, posInf => negInf
  | _, _ => nan

/-- JavaScript multiplication (`*`); note `0 * Infinity = NaN`. -/
def mul : JSNum → JSNum → JSNum
  | num a, num b => num (a * b)
  | num a, posInf => if 0 < a then posInf else if a < 0 then negInf else nan
  | num a, negInf => if 0 < a then negInf else if a < 0 then posInf else nan
  | posInf, num b => if 0 < b then posInf else if b < 0 then negInf else nan
  | negInf, num b => if 0 < b then negInf else if b < 0 then posInf else nan
  | posInf, posInf => posInf
  | posInf, negInf => negInf
  | negInf, posInf => negInf
  | negInf, negInf => posInf
  | _, _ => nan

/-- JavaScript division (`/`); division by zero yields an infinity
(or NaN for `0 / 0`) and never throws. -/
def div : JSNum → JSNum → JSNum
  | num a, num b =>
      if b = 0 then (if 0 < a then posInf else if a < 0 then negInf else nan)
      else num (a / b)
  | num _, posInf => num 0
  | num _, negInf => num 0
  | posInf, num b => if 0 ≤ b then posInf else negInf
  | negInf, num b => if 0 ≤ b then negInf else posInf
  | _, _ => nan

/-- `Math.round`: for a finite value this is `⌊x + 1/2⌋` (halves round
towards positive infinity, also for negative arguments); the special
values are fixed points. -/
def round : JSNum → JSNum
  | num q => num ((⌊q + 1 / 2⌋ : ℤ) : ℚ)
  | x => x

/-- Strict equality `x === n` against a numeric literal; NaN and the
infinities are never equal to a finite literal. -/
def eqNum : JSNum → ℚ → Bool
  | num q, n => decide (q = n)
  | _, _ => false

end JSNum

@[simp] theorem jsnum_add_num (a b : ℚ) :
    (JSNum.num a).add (JSNum.num b) = JSNum.num (a + b) := rfl

@[simp] theorem jsnum_sub_num (a b : ℚ) :
    (JSNum.num a).sub (JSNum.num b) = JSNum.num (a - b) := rfl

@[simp] theorem jsnum_mul_num (a b : ℚ) :
    (JSNum.num a).mul (JSNum.num b) = JSNum.num (a * b) := rfl

@[simp] theorem jsnum_round_num (q : ℚ) :
    (JSNum.num q).round = JSNum.num ((⌊q + 1 / 2⌋ : ℤ) : ℚ) := rfl

@[simp] theorem jsnum_eqNum_num (q n : ℚ) :
    (JSNum.num q).eqNum n = decide (q = n) := rfl

theorem jsnum_div_num (a b : ℚ) (hb : b ≠ 0) :
    (JSNum.num a).div (JSNum.num b) = JSNum.num (a / b) := by
  simp [JSNum.div, hb]

/-! ### The priority normalizer (`PrioritySliders`, `handleSliderChange`)

Source: the `PriorityValues` interface and the `handleSliderChange`
handler.  The handler is split into the state update
(`priorities.set`) and the normalization body (`normalizeCore`), the
composition being exactly the source function.
-/

structure PriorityValues where
  textual : JSNum
  graphical : JSNum
  symbolical : JSNum
deriving DecidableEq

inductive PriorityKey where
  | textual
  | graphical
  | symbolical
deriving DecidableEq

def PriorityValues.get (p : PriorityValues) : PriorityKey → JSNum
  | .textual => p.textual
  | .graphical => p.graphical
  | .symbolical => p.symbolical

def PriorityValues.set (p : PriorityValues) : PriorityKey → JSNum → PriorityValues
  | .textual, v => ⟨v, p.graphical, p.symbolical⟩
  | .graphical, v => ⟨p.textual, v, p.symbolical⟩
  | .symbolical, v => ⟨p.textual, p.graphical, v⟩

/-- `Object.values(p).reduce((sum, val) => sum + val, 0)`: the key order
of the object literal is textual, graphical, symbolical. -/
def totalOf (p : PriorityValues) : JSNum :=
  (((JSNum.num 0).add p.textual).add p.graphical).add p.symbolical

/-- The body of `handleSliderChange` after the edited key has been
written (source lines 23-41): if the total is not 100, scale every
value by `100 / total` and round; if the rounded total still differs
from 100, add the residual to the edited key. -/
def normalizeCore (newPriorities : PriorityValues) (type : PriorityKey) :
    PriorityValues :=
  let total := totalOf newPriorities
  if total.eqNum 100 then newPriorities
  else
    let factor := (JSNum.num 100).div total
    let scaled : PriorityValues :=
      ⟨(newPriorities.textual.mul factor).round,
       (newPriorities.graphical.mul factor).round,
       (newPriorities.symbolical.mul factor).round⟩
    let finalTotal := totalOf scaled
    if finalTotal.eqNum 100 then scaled
    else scaled.set type ((scaled.get type).add ((JSNum.num 100).sub finalTotal))

/-- `handleSliderChange(type, value)` on a current state `priorities`:
write the edited key, then normalize. -/
def handleSliderChange (priorities : PriorityValues) (type : PriorityKey)
    (value : JSNum) : PriorityValues :=
  normalizeCore (priorities.set type value) type

/-! ### Normalizer lemmas -/

/-- Master lemma about the normalization body on a finite non-negative
triple with positive total: the result is a triple of integers summing
to 100, every component is at least -1, and every component other than
the edited key is non-negative. -/
theorem normalizeCore_spec (p q r : ℤ) (t : PriorityKey)
    (hp : 0 ≤ p) (hq : 0 ≤ q) (hr : 0 ≤ r) (hs : 0 < p + q + r) :
    ∃ x y z : ℤ,
      normalizeCore ⟨JSNum.num (p : ℚ), JSNum.num (q : ℚ), JSNum.num (r : ℚ)⟩ t
        = ⟨JSNum.num (x : ℚ), JSNum.num (y : ℚ), JSNum.num (z : ℚ)⟩
      ∧ x + y + z = 100
      ∧ (-1 ≤ x ∧ -1 ≤ y ∧ -1 ≤ z)
      ∧ (t ≠ .textual → 0 ≤ x) ∧ (t ≠ .graphical → 0 ≤ y)
      ∧ (t ≠ .symbolical → 0 ≤ z) := by
  have hSq : ((0 : ℚ) + p + q + r) = ((p + q + r : ℤ) : ℚ) := by push_cast; ring
  have hSpos : (0 : ℚ) < ((p + q + r : ℤ) : ℚ) := by exact_mod_cast hs
  have hSne : ((p + q + r : ℤ) : ℚ) ≠ 0 := ne_of_gt hSpos
  by_cases h100 : ((0 : ℚ) + p + q + r) = 100
  · refine ⟨p, q, r, ?_, ?_, ⟨by omega, by omega, by omega⟩, fun _ => hp, fun _ => hq,
      fun _ => hr⟩
    · simp only [normalizeCore, totalOf, jsnum_add_num, jsnum_eqNum_num,
        decide_eq_true_eq]
      rw [if_pos h100]
    · have : ((p + q + r : ℤ) : ℚ) = 100 := by rw [← hSq, h100]
      exact_mod_cast this
  · -- scaling branch
    set S : ℚ := ((p + q + r : ℤ) : ℚ) with hS
    set f : ℚ := 100 / S with hf
    set r1 : ℤ := ⌊(p : ℚ) * f + 1 / 2⌋ with hr1
    set r2 : ℤ := ⌊(q : ℚ) * f + 1 / 2⌋ with hr2
    set r3 : ℤ := ⌊(r : ℚ) * f + 1 / 2⌋ with hr3
    have hfpos : 0 < f := by positivity
    have hnn1 : 0 ≤ r1 := by
      rw [hr1]; exact Int.le_floor.mpr (by push_cast; positivity)
    have hnn2 : 0 ≤ r2 := by
      rw [hr2]; exact Int.le_floor.mpr (by push_cast; positivity)
    have hnn3 : 0 ≤ r3 := by
      rw [hr3]; exact Int.le_floor.mpr (by push_cast; positivity)
    have hsum : r1 + r2 + r3 ≤ 101 := by
      have e1 : (r1 : ℚ) ≤ (p : ℚ) * f + 1 / 2 := Int.floor_le _
      have e2 : (r2 : ℚ) ≤ (q : ℚ) * f + 1 / 2 := Int.floor_le _
      have e3 : (r3 : ℚ) ≤ (r : ℚ) * f + 1 / 2 := Int.floor_le _
      have hprod : ((p : ℚ) + q + r) * f = 100 := by
        have : ((p : ℚ) + q + r) = S := by rw [hS]; push_cast; ring
        rw [this, hf]; field_simp
      by_contra hgt
      push_neg at hgt
      have : (102 : ℚ) ≤ (r1 : ℚ) + r2 + r3 := by exact_mod_cast hgt
      nlinarith
    have hunf : normalizeCore ⟨JSNum.num (p : ℚ), JSNum.num (q : ℚ), JSNum.num (r : ℚ)⟩ t
        = (if ((0 : ℚ) + r1 + r2 + r3) = 100 then
            (⟨JSNum.num (r1 : ℚ), JSNum.num (r2 : ℚ), JSNum.num (r3 : ℚ)⟩ : PriorityValues)
          else
            (⟨JSNum.num (r1 : ℚ), JSNum.num (r2 : ℚ), JSNum.num (r3 : ℚ)⟩ :
                PriorityValues).set t
              ((( ⟨JSNum.num (r1 : ℚ), JSNum.num (r2 : ℚ), JSNum.num (r3 : ℚ)⟩ :
                  PriorityValues).get t).add
                ((JSNum.num 100).sub (JSNum.num ((0 : ℚ) + r1 + r2 + r3))))) := by
      simp only [normalizeCore, totalOf, jsnum_add_num, jsnum_eqNum_num,
        decide_eq_true_eq]
      rw [if_neg h100, hSq, jsnum_div_num _ _ hSne]
      simp only [jsnum_mul_num, jsnum_round_num, ← hf, ← hr1, ← hr2, ← hr3,
        jsnum_add_num, jsnum_sub_num, jsnum_eqNum_num, decide_eq_true_eq]
    by_cases hF : ((0 : ℚ) + r1 + r2 + r3) = 100
    · have hsum100 : r1 + r2 + r3 = 100 := by
        have : ((r1 + r2 + r3 : ℤ) : ℚ) = 100 := by push_cast; linarith [hF]
        exact_mod_cast this
      refine ⟨r1, r2, r3, ?_, hsum100, ⟨by omega, by omega, by omega⟩,
        fun _ => hnn1, fun _ => hnn2, fun _ => hnn3⟩
      rw [hunf, if_pos hF]
    · have hne : ((0 : ℚ) + r1 + r2 + r3) ≠ 100 := hF
      cases t with
      | textual =>
          refine ⟨r1 + (100 - (r1 + r2 + r3)), r2, r3, ?_, by ring, ⟨by omega, by omega,
            by omega⟩, fun h => absurd rfl h, fun _ => hnn2, fun _ => hnn3⟩
          rw [hunf, if_neg hne]
          simp only [PriorityValues.set, PriorityValues.get, jsnum_add_num, jsnum_sub_num]
          congr 1
          push_cast; ring_nf
      | graphical =>
          refine ⟨r1, r2 + (100 - (r1 + r2 + r3)), r3, ?_, by ring, ⟨by omega, by omega,
            by omega⟩, fun _ => hnn1, fun h => absurd rfl h, fun _ => hnn3⟩
          rw [hunf, if_neg hne]
          simp only [PriorityValues.set, PriorityValues.get, jsnum_add_num, jsnum_sub_num]
          congr 1
          push_cast; ring_nf
      | symbolical =>
          refine ⟨r1, r2, r3 + (100 - (r1 + r2 + r3)), ?_, by ring, ⟨by omega, by omega,
            by omega⟩, fun _ => hnn1, fun _ => hnn2, fun h => absurd rfl h⟩
          rw [hunf, if_neg hne]
          simp only [PriorityValues.set, PriorityValues.get, jsnum_add_num, jsnum_sub_num]
          congr 1
          push_cast; ring_nf

/-- The set triple is all-zero exactly when the three written values are
zero; used to turn the "not all zero after the edit" hypothesis into a
positive total. -/
theorem set_ne_zero_total (v b c : ℤ)
    (hb : 0 ≤ b) (hc : 0 ≤ c) (hv : 0 ≤ v)
    (h : (⟨JSNum.num (v : ℚ), JSNum.num (b : ℚ), JSNum.num (c : ℚ)⟩ : PriorityValues)
        ≠ ⟨JSNum.num 0, JSNum.num 0, JSNum.num 0⟩) :
    0 < v + b + c := by
  rcases (by omega : 0 < v + b + c ∨ (v = 0 ∧ b = 0 ∧ c = 0)) with hpos | ⟨h1, h2, h3⟩
  · exact hpos
  · exact absurd (by rw [h1, h2, h3]; norm_num) h

/-- Claim C1: for every current three-way split and every single-key
edit with non-negative integer values such that the three values after
the edit are not all zero, `handleSliderChange` returns a triple of
integers whose sum is exactly 100. -/
theorem spec_C1 (a b c v : ℤ) (t : PriorityKey)
    (ha : 0 ≤ a) (hb : 0 ≤ b) (hc : 0 ≤ c) (hv : 0 ≤ v)
    (hnz : (⟨JSNum.num (a : ℚ), JSNum.num (b : ℚ), JSNum.num (c : ℚ)⟩ :
        PriorityValues).set t (JSNum.num (v : ℚ))
      ≠ ⟨JSNum.num 0, JSNum.num 0, JSNum.num 0⟩) :
    ∃ x y z : ℤ,
      handleSliderChange ⟨JSNum.num (a : ℚ), JSNum.num (b : ℚ), JSNum.num (c : ℚ)⟩ t
          (JSNum.num (v : ℚ))
        = ⟨JSNum.num (x : ℚ), JSNum.num (y : ℚ), JSNum.num (z : ℚ)⟩
      ∧ x + y + z = 100 := by
  cases t with
  | textual =>
      simp only [handleSliderChange, PriorityValues.set] at hnz ⊢
      obtain ⟨x, y, z, hEq, hSum, -⟩ :=
        normalizeCore_spec v b c .textual hv hb hc (set_ne_zero_total v b c hb hc hv hnz)
      exact ⟨x, y, z, hEq, hSum⟩
  | graphical =>
      simp only [handleSliderChange, PriorityValues.set] at hnz ⊢
      obtain ⟨x, y, z, hEq, hSum, -⟩ :=
        normalizeCore_spec a v c .graphical ha hv hc (by
          have := set_ne_zero_total a v c ?_ hc ha ?_
          · omega
          · exact hv
          · intro hcon
            exact hnz (by
              have h1 := congrArg PriorityValues.textual hcon
              have h2 := congrArg PriorityValues.graphical hcon
              have h3 := congrArg PriorityValues.symbolical hcon
              simp only at h1 h2 h3
              rw [h1, h2, h3]))
      exact ⟨x, y, z, hEq, hSum⟩
  | symbolical =>
      simp only [handleSliderChange, PriorityValues.set] at hnz ⊢
      obtain ⟨x, y, z, hEq, hSum, -⟩ :=
        normalizeCore_spec a b v .symbolical ha hb hv (by
          have := set_ne_zero_total a b v ?_ hv ha ?_
          · omega
          · exact hb
          · intro hcon
            exact hnz (by
              have h1 := congrArg PriorityValues.textual hcon
              have h2 := congrArg PriorityValues.graphical hcon
              have h3 := congrArg PriorityValues.symbolical hcon
              simp only at h1 h2 h3
              rw [h1, h2, h3]))
      exact ⟨x, y, z, hEq, hSum⟩

/-- Witness for C1 at the spec's own example: split (33,33,34), edit
textual to 60. -/
theorem spec_C1_witness :
    (0 ≤ (33 : ℤ)) ∧ (0 ≤ (60 : ℤ)) ∧
    ∃ x y z : ℤ,
      handleSliderChange
          ⟨JSNum.num ((33 : ℤ) : ℚ), JSNum.num ((33 : ℤ) : ℚ), JSNum.num ((34 : ℤ) : ℚ)⟩
          PriorityKey.textual (JSNum.num ((60 : ℤ) : ℚ))
        = ⟨JSNum.num (x : ℚ), JSNum.num (y : ℚ), JSNum.num (z : ℚ)⟩
      ∧ x + y + z = 100 :=
  ⟨by decide, by decide,
    spec_C1 33 33 34 60 PriorityKey.textual (by decide) (by decide) (by decide)
      (by decide) (by norm_num [PriorityValues.set])⟩

/-- Counterexample to claim C2 as stated: with the non-negative current
split (33, 1, 39) and the edit textual := 0, the total is 40, the
scaling factor 100/40 rounds 1 to 3 and 39 to 98 (both halves round
up), the rounded total is 101, and the residual -1 drives the edited
key to -1, which is below zero. -/
theorem spec_C2_cex :
    handleSliderChange ⟨JSNum.num 33, JSNum.num 1, JSNum.num 39⟩ PriorityKey.textual
        (JSNum.num 0)
      = ⟨JSNum.num (-1), JSNum.num 3, JSNum.num 98⟩
    ∧ ((-1 : ℚ) < 0) := by
  constructor
  · norm_num [handleSliderChange, normalizeCore, totalOf, PriorityValues.set,
      PriorityValues.get, JSNum.div, JSNum.eqNum]
  · norm_num

/-- Claim C2 (amended): for non-negative integer inputs not all zero
after the edit, every output value is an integer, the two values other
than the edited key are non-negative, and every value — including the
just-edited key, which the residual correction can push below zero —
is at least -1. -/
theorem spec_C2_amended (a b c v : ℤ) (t : PriorityKey)
    (ha : 0 ≤ a) (hb : 0 ≤ b) (hc : 0 ≤ c) (hv : 0 ≤ v)
    (hnz : (⟨JSNum.num (a : ℚ), JSNum.num (b : ℚ), JSNum.num (c : ℚ)⟩ :
        PriorityValues).set t (JSNum.num (v : ℚ))
      ≠ ⟨JSNum.num 0, JSNum.num 0, JSNum.num 0⟩) :
    ∃ x y z : ℤ,
      handleSliderChange ⟨JSNum.num (a : ℚ), JSNum.num (b : ℚ), JSNum.num (c : ℚ)⟩ t
          (JSNum.num (v : ℚ))
        = ⟨JSNum.num (x : ℚ), JSNum.num (y : ℚ), JSNum.num (z : ℚ)⟩
      ∧ (-1 ≤ x ∧ -1 ≤ y ∧ -1 ≤ z)
      ∧ (t ≠ .textual → 0 ≤ x) ∧ (t ≠ .graphical → 0 ≤ y)
      ∧ (t ≠ .symbolical → 0 ≤ z) := by
  cases t with
  | textual =>
      simp only [handleSliderChange, PriorityValues.set] at hnz ⊢
      obtain ⟨x, y, z, hEq, -, hLo, hT, hG, hS⟩ :=
        normalizeCore_spec v b c .textual hv hb hc (set_ne_zero_total v b c hb hc hv hnz)
      exact ⟨x, y, z, hEq, hLo, hT, hG, hS⟩
  | graphical =>
      simp only [handleSliderChange, PriorityValues.set] at hnz ⊢
      obtain ⟨x, y, z, hEq, -, hLo, hT, hG, hS⟩ :=
        normalizeCore_spec a v c .graphical ha hv hc (by
          have := set_ne_zero_total a v c ?_ hc ha ?_
          · omega
          · exact hv
          · intro hcon
            exact hnz (by
              have h1 := congrArg PriorityValues.textual hcon
              have h2 := congrArg PriorityValues.graphical hcon
              have h3 := congrArg PriorityValues.symbolical hcon
              simp only at h1 h2 h3
              rw [h1, h2, h3]))
      exact ⟨x, y, z, hEq, hLo, hT, hG, hS⟩
  | symbolical =>
      simp only [handleSliderChange, PriorityValues.set] at hnz ⊢
      obtain ⟨x, y, z, hEq, -, hLo, hT, hG, hS⟩ :=
        normalizeCore_spec a b v .symbolical ha hb hv (by
          have := set_ne_zero_total a b v ?_ hv ha ?_
          · omega
          · exact hb
          · intro hcon
            exact hnz (by
              have h1 := congrArg PriorityValues.textual hcon
              have h2 := congrArg PriorityValues.graphical hcon
              have h3 := congrArg PriorityValues.symbolical hcon
              simp only at h1 h2 h3
              rw [h1, h2, h3]))
      exact ⟨x, y, z, hEq, hLo, hT, hG, hS⟩

/-- Witness for the amended C2 at the split (20, 30, 40), edit
graphical := 10. -/
theorem spec_C2_amended_witness :
    (0 ≤ (20 : ℤ)) ∧ (0 ≤ (10 : ℤ)) ∧
    ∃ x y z : ℤ,
      handleSliderChange
          ⟨JSNum.num ((20 : ℤ) : ℚ), JSNum.num ((30 : ℤ) : ℚ), JSNum.num ((40 : ℤ) : ℚ)⟩
          PriorityKey.graphical (JSNum.num ((10 : ℤ) : ℚ))
        = ⟨JSNum.num (x : ℚ), JSNum.num (y : ℚ), JSNum.num (z : ℚ)⟩
      ∧ (-1 ≤ x ∧ -1 ≤ y ∧ -1 ≤ z)
      ∧ (PriorityKey.graphical ≠ .textual → 0 ≤ x)
      ∧ (PriorityKey.graphical ≠ .graphical → 0 ≤ y)
      ∧ (PriorityKey.graphical ≠ .symbolical → 0 ≤ z) :=
  ⟨by decide, by decide,
    spec_C2_amended 20 30 40 10 PriorityKey.graphical (by decide) (by decide)
      (by decide) (by decide) (by norm_num [PriorityValues.set])⟩

/-- Counterexample to claim C3 as stated: when the three values after
the edit are all zero, no error is raised; the JavaScript division
100/0 yields Infinity, the products 0 * Infinity yield NaN, and the
handler returns the triple (NaN, NaN, NaN). -/
theorem spec_C3_cex :
    handleSliderChange ⟨JSNum.num 0, JSNum.num 0, JSNum.num 5⟩ PriorityKey.symbolical
        (JSNum.num 0)
      = ⟨JSNum.nan, JSNum.nan, JSNum.nan⟩ := by
  norm_num [handleSliderChange, normalizeCore, totalOf, PriorityValues.set,
    PriorityValues.get, JSNum.div, JSNum.eqNum, JSNum.mul, JSNum.add, JSNum.sub,
    JSNum.round]

/-- Claim C3 (amended): when the three values after the edit are all
zero, the normalizer does not fail; it returns the triple
(NaN, NaN, NaN) — division by zero in JavaScript never throws. -/
theorem spec_C3_amended (p : PriorityValues) (t : PriorityKey) (v : JSNum)
    (h : p.set t v = ⟨JSNum.num 0, JSNum.num 0, JSNum.num 0⟩) :
    handleSliderChange p t v = ⟨JSNum.nan, JSNum.nan, JSNum.nan⟩ := by
  unfold handleSliderChange
  rw [h]
  cases t <;>
    norm_num [normalizeCore, totalOf, PriorityValues.set, PriorityValues.get,
      JSNum.div, JSNum.eqNum, JSNum.mul, JSNum.add, JSNum.sub, JSNum.round]

/-- Witness for the amended C3 at the split (0, 7, 0), edit
graphical := 0. -/
theorem spec_C3_amended_witness :
    handleSliderChange ⟨JSNum.num 0, JSNum.num 7, JSNum.num 0⟩ PriorityKey.graphical
        (JSNum.num 0)
      = ⟨JSNum.nan, JSNum.nan, JSNum.nan⟩ :=
  spec_C3_amended ⟨JSNum.num 0, JSNum.num 7, JSNum.num 0⟩ PriorityKey.graphical
    (JSNum.num 0) rfl

/-- Claim C4: the normalizer is idempotent on normalized inputs — if the
current triple sums to 100 and the edit writes a key's current value
back, the handler returns the same triple unchanged (the total is 100,
so the scaling branch is never entered). -/
theorem spec_C4 (a b c : ℤ) (t : PriorityKey) (value : JSNum)
    (hsum : a + b + c = 100)
    (hval : value = (⟨JSNum.num (a : ℚ), JSNum.num (b : ℚ), JSNum.num (c : ℚ)⟩ :
        PriorityValues).get t) :
    handleSliderChange ⟨JSNum.num (a : ℚ), JSNum.num (b : ℚ), JSNum.num (c : ℚ)⟩ t value
      = ⟨JSNum.num (a : ℚ), JSNum.num (b : ℚ), JSNum.num (c : ℚ)⟩ := by
  subst hval
  have h100 : ((0 : ℚ) + a + b + c) = 100 := by
    have h : ((a + b + c : ℤ) : ℚ) = ((100 : ℤ) : ℚ) := by rw [hsum]
    push_cast at h
    linarith
  cases t <;>
    · simp only [handleSliderChange, PriorityValues.set, PriorityValues.get,
        normalizeCore, totalOf, jsnum_add_num, jsnum_eqNum_num, decide_eq_true_eq]
      rw [if_pos h100]

/-- Witness for C4 at the default split (33, 33, 34) with the edit
textual := 33 (its current value). -/
theorem spec_C4_witness :
    ((33 : ℤ) + 33 + 34 = 100) ∧
    handleSliderChange
        ⟨JSNum.num ((33 : ℤ) : ℚ), JSNum.num ((33 : ℤ) : ℚ), JSNum.num ((34 : ℤ) : ℚ)⟩
        PriorityKey.textual (JSNum.num ((33 : ℤ) : ℚ))
      = ⟨JSNum.num ((33 : ℤ) : ℚ), JSNum.num ((33 : ℤ) : ℚ), JSNum.num ((34 : ℤ) : ℚ)⟩ :=
  ⟨by decide, spec_C4 33 33 34 PriorityKey.textual (JSNum.num ((33 : ℤ) : ℚ))
    (by decide) rfl⟩

/-! ### String primitives (JavaScript semantics)

Strings are lists of characters.  The helpers below model, one to one,
the JavaScript string operations used by the extractor: the whitespace
class of the regex escape and of trim, case canonicalization of the
`i` flag, split against a single-character class, first-occurrence
replace, and parseFloat on a digit string.
-/

/-- The JavaScript whitespace set (the regex whitespace class, which is
also the set trimmed by trim): space, tab, line feed, vertical tab,
form feed, carriage return, NBSP, Ogham space mark, the U+2000-200A
range, the two line separators, NNBSP, MMSP, ideographic space and the
BOM. -/
def jsIsWs (c : Char) : Bool :=
  c == ' ' || c == '\t' || c == '\n' || c.toNat == 11 || c.toNat == 12 || c == '\r' ||
  c.toNat == 160 || c.toNat == 0x1680 ||
  (decide (0x2000 ≤ c.toNat) && decide (c.toNat ≤ 0x200a)) ||
  c.toNat == 0x2028 || c.toNat == 0x2029 || c.toNat == 0x202f ||
  c.toNat == 0x205f || c.toNat == 0x3000 || c.toNat == 0xfeff

/-- String.prototype.trim: drop leading and trailing whitespace. -/
def jsTrim (s : List Char) : List Char :=
  ((s.dropWhile jsIsWs).reverse.dropWhile jsIsWs).reverse

/-- Case canonicalization of the regex `i` flag, restricted to the
characters relevant to the source patterns: ASCII letters fold to
lower case, and the Greek capital mu and the micro sign — the two
characters the flag identifies with mu — fold to mu. -/
def jsFoldChar (c : Char) : Char :=
  if c = 'Μ' then 'μ' else if c = 'µ' then 'μ' else c.toLower

/-- Consume the literal `lab` case-insensitively at the head of `s`,
returning the rest on success. -/
def tryCI : List Char → List Char → Option (List Char)
  | [], s => some s
  | _ :: _, [] => none
  | a :: la, b :: lb => if jsFoldChar a = jsFoldChar b then tryCI la lb else none

/-- Length of the maximal prefix of `s` whose characters satisfy `p`. -/
def runLen (p : Char → Bool) : List Char → Nat
  | [] => 0
  | c :: rest => if p c then runLen p rest + 1 else 0

/-- Ordered alternation: the result of `f` on the first alternative on
which it succeeds. -/
def firstSome {α β : Type} : List α → (α → Option β) → Option β
  | [], _ => none
  | a :: rest, f =>
      match f a with
      | some b => some b
      | none => firstSome rest f

/-- Leftmost match of a non-global regex: try the matcher at every
start position from the left, the empty suffix at the end of the
string included. -/
def matchFirst {α : Type} (f : List Char → Option α) : List Char → Option α
  | [] => f []
  | c :: rest =>
      match f (c :: rest) with
      | some g => some g
      | none => matchFirst f rest

/-- String.split against a single-character class: every delimiter
occurrence separates fragments, so leading, trailing and adjacent
delimiters produce empty fragments; the result is never the empty
list. -/
def splitOnPred (p : Char → Bool) : List Char → List (List Char)
  | [] => [[]]
  | c :: rest =>
      if p c then [] :: splitOnPred p rest
      else
        match splitOnPred p rest with
        | g :: gs => (c :: g) :: gs
        | [] => [[c]]

/-- String.replace with a string pattern and empty replacement: remove
the first occurrence of `needle` from `hay` (no change when `needle`
does not occur). -/
def replaceFirst (hay needle : List Char) : List Char :=
  if needle.isPrefixOf hay then hay.drop needle.length
  else
    match hay with
    | [] => []
    | c :: rest => c :: replaceFirst rest needle

/-- Numeric value of a digit string. -/
def digitsToNat (s : List Char) : Nat :=
  s.foldl (fun n c => 10 * n + (c.toNat - 48)) 0

/-- parseFloat on a capture of the shape digits, optionally followed by
a dot and digits — the only shapes the metric patterns capture; the
value is exact. -/
def parseJsNum (s : List Char) : ℚ :=
  let d := runLen Char.isDigit s
  let ip : ℚ := (digitsToNat (s.take d) : ℕ)
  match s.drop d with
  | '.' :: t => ip + (digitsToNat t : ℚ) / (10 : ℚ) ^ t.length
  | _ => ip

/-! ### The heuristic text extractor (`extractMetrics`, `processInitialData`)

The three metric regexes all have the shape: digit run, optional
fraction, whitespace run, ordered unit alternation.  For that shape
greedy matching without backtracking is exact: digits cannot start a
unit, units do not start with whitespace or a dot, so no shorter
choice of any run can turn a failure into a match.
-/

structure Metric where
  label : List Char
  value : ℚ
  unit : List Char
deriving DecidableEq

def measurementUnits : List (List Char) :=
  ["mg".toList, "g".toList, "ml".toList, "L".toList]

def percentUnits : List (List Char) :=
  ["%".toList]

def labUnits : List (List Char) :=
  ["U/L".toList, "IU/L".toList, "μmol/L".toList, "mg/dL".toList]

/-- The three patterns in source order with their type names. -/
def metricPatterns : List (List (List Char) × List Char) :=
  [(measurementUnits, "measurement".toList),
   (percentUnits, "percentage".toList),
   (labUnits, "lab_value".toList)]

/-- Try one metric pattern at the head of `s`: maximal digit run,
optional fraction, maximal whitespace run, then the first unit
alternative matching case-insensitively.  On success returns the
length of the numeric capture and the total match length. -/
def tryMetricAt (units : List (List Char)) (s : List Char) : Option (Nat × Nat) :=
  let d := runLen Char.isDigit s
  if d = 0 then none
  else
    let s1 := s.drop d
    let frac : Nat :=
      match s1 with
      | '.' :: t => (fun e => if e = 0 then 0 else e + 1) (runLen Char.isDigit t)
      | _ => 0
    let numLen := d + frac
    let s2 := s.drop numLen
    let w := runLen jsIsWs s2
    let s3 := s2.drop w
    (firstSome units fun u => (tryCI u s3).map fun _ => u.length).map
      fun ul => (numLen, numLen + w + ul)

/-- The exec loop of a global regex: successive non-overlapping
leftmost matches, each recorded as (index, capture length, match
length); `fuel` is instantiated with the length of the text. -/
def scanMetrics (units : List (List Char)) :
    Nat → List Char → Nat → List (Nat × Nat × Nat)
  | 0, _, _ => []
  | _ + 1, [], _ => []
  | fuel + 1, c :: rest, i =>
      match tryMetricAt units (c :: rest) with
      | some (nl, tl) =>
          (i, nl, tl) :: scanMetrics units fuel ((c :: rest).drop tl) (i + tl)
      | none => scanMetrics units fuel rest (i + 1)

/-- The sentence/clause delimiters of the context window split. -/
def contextDelim (c : Char) : Bool :=
  c == '.' || c == ',' || c == ';' || c == ':'

/-- The label context of a match at index `i`: the last fragment of the
at most 50 characters preceding the match, split at sentence/clause
delimiters, trimmed. -/
def contextAt (text : List Char) (i : Nat) : List Char :=
  jsTrim ((splitOnPred contextDelim ((text.take i).drop (i - 50))).getLastD [])

/-- charAt(0).toUpperCase() plus slice(1). -/
def jsCapitalize : List Char → List Char
  | [] => []
  | c :: rest => c.toUpper :: rest

/-- Build one metric from a recorded match: parseFloat of the capture;
the unit is the matched text with the first occurrence of the capture
removed, trimmed; the label is the capitalized context, falling back
to the pattern type name when the trimmed context is empty. -/
def processMatch (text ty : List Char) (m : Nat × Nat × Nat) : Metric :=
  let matched := (text.drop m.1).take m.2.2
  let numStr := (text.drop m.1).take m.2.1
  let ctx := contextAt text m.1
  let context := if ctx = [] then ty else ctx
  ⟨jsCapitalize context, parseJsNum numStr, jsTrim (replaceFirst matched numStr)⟩

/-- extractMetrics: for each of the three patterns in order, push the
processed matches of its exec loop. -/
def extractMetrics (text : List Char) : List Metric :=
  metricPatterns.foldl
    (fun ms p => ms ++ (scanMetrics p.1 text.length text 0).map (processMatch text p.2))
    []

/-- Matcher for the title regex at one start position: ordered optional
label ("Title" then "Name" then nothing), optional colon, greedy
whitespace run with backtracking, then a non-empty maximal run of
non-newline characters as group 1. -/
def titleAt (s : List Char) : Option (List Char) :=
  firstSome ["Title".toList, "Name".toList, []] fun lab =>
    (tryCI lab s).bind fun s1 =>
      firstSome [[':'], []] fun col =>
        (tryCI col s1).bind fun s2 =>
          firstSome (List.range (runLen jsIsWs s2 + 1)).reverse fun k =>
            let s3 := s2.drop k
            let m := runLen (fun c => c != '\n') s3
            if m = 0 then none else some (s3.take m)

/-- Matcher for the study-type regex at one start position: required
label ("study type" then "design"), optional colon, greedy whitespace
run with backtracking, then a non-empty maximal run of characters that
are not newline, dot or comma. -/
def typeAt (s : List Char) : Option (List Char) :=
  firstSome ["study type".toList, "design".toList] fun lab =>
    (tryCI lab s).bind fun s1 =>
      firstSome [[':'], []] fun col =>
        (tryCI col s1).bind fun s2 =>
          firstSome (List.range (runLen jsIsWs s2 + 1)).reverse fun k =>
            let s3 := s2.drop k
            let m := runLen (fun c => c != '\n' && c != '.' && c != ',') s3
            if m = 0 then none else some (s3.take m)

/-- Matcher for the methods/findings regexes at one start position:
ordered label alternatives, optional colon, greedy whitespace run with
backtracking, then the lazy non-empty hash-free capture that must be
followed by a newline or the end of the text. -/
def sectionAt (labels : List (List Char)) (s : List Char) : Option (List Char) :=
  firstSome labels fun lab =>
    (tryCI lab s).bind fun s1 =>
      firstSome [[':'], []] fun col =>
        (tryCI col s1).bind fun s2 =>
          firstSome (List.range (runLen jsIsWs s2 + 1)).reverse fun k =>
            let s3 := s2.drop k
            let m := runLen (fun c => c != '#') s3
            firstSome (List.range' 1 m) fun j =>
              if (s3.drop j) = [] ∨ (s3.drop j).head? = some '\n' then some (s3.take j)
              else none

/-- The ordered label alternatives of the methods regex. -/
def methodLabels : List (List Char) :=
  ["Methods".toList, "Method".toList, "Protocol".toList]

/-- The ordered label alternatives of the findings regex. -/
def findingLabels : List (List Char) :=
  ["Results".toList, "Result".toList, "Findings".toList, "Finding".toList]

/-- The split delimiters of the methods/findings lists. -/
def sentenceDelim (c : Char) : Bool :=
  c == '.' || c == ';'

/-- split(/[.;]/), map trim, filter truthy (non-empty) and length
greater than 10. -/
def sectionItems (g : List Char) : List (List Char) :=
  ((splitOnPred sentenceDelim g).map jsTrim).filter
    (fun s => !s.isEmpty && decide (10 < s.length))

/-- Title extraction: trimmed group of the leftmost title match, the
literal "Research Study" when there is no match or the trimmed group
is empty (falsy). -/
def titleOf (text : List Char) : List Char :=
  match matchFirst titleAt text with
  | some g => if jsTrim g = [] then "Research Study".toList else jsTrim g
  | none => "Research Study".toList

/-- Study-type extraction: trimmed group of the leftmost type match,
the literal "Clinical Study" when there is no match or the trimmed
group is empty (falsy). -/
def typeOf (text : List Char) : List Char :=
  match matchFirst typeAt text with
  | some g => if jsTrim g = [] then "Clinical Study".toList else jsTrim g
  | none => "Clinical Study".toList

/-- Methods extraction: the section items of the leftmost methods
match, the empty list when there is no match. -/
def methodsOf (text : List Char) : List (List Char) :=
  match matchFirst (sectionAt methodLabels) text with
  | some g => sectionItems g
  | none => []

/-- Findings extraction: the section items of the leftmost findings
match, the empty list when there is no match. -/
def findingsOf (text : List Char) : List (List Char) :=
  match matchFirst (sectionAt findingLabels) text with
  | some g => sectionItems g
  | none => []

structure ProcessedData where
  title : List Char
  type : List Char
  metrics : List Metric
  methods : List (List Char)
  findings : List (List Char)
deriving DecidableEq

/-- processInitialData: title, study type, metrics, methods and
findings, each extracted as in the source. -/
def processInitialData (text : List Char) : ProcessedData :=
  ⟨titleOf text, typeOf text, extractMetrics text, methodsOf text, findingsOf text⟩

/-! ### Spec-side readings, for comparison with the code

These two definitions follow the words of the specification and of the
claims — "first line with a label prefix", "locate a labeled section"
— and are used only to compare the claimed behaviour with the code. -/

/-- The newline-separated lines of the text. -/
def jsLines (text : List Char) : List (List Char) :=
  splitOnPred (fun c => c == '\n') text

/-- Claim C9's reading of the study type: the first line that starts
(case-insensitively) with a "study type:" or "design:" label prefix,
with the label stripped and the remainder trimmed; the literal
"Clinical Study" when no such line exists. -/
def specClaimType (text : List Char) : List Char :=
  match (jsLines text).findSome? (fun l =>
      (tryCI ("study type:".toList) l).orElse (fun _ => tryCI ("design:".toList) l)) with
  | some rest => jsTrim rest
  | none => "Clinical Study".toList

/-- Claim C8's reading of a labeled section: at the leftmost
case-insensitive label occurrence, the content is the rest of that
line after an optional colon and leading whitespace. -/
def specClaimSection (labels : List (List Char)) (text : List Char) :
    Option (List Char) :=
  matchFirst (fun s =>
    firstSome labels fun lab =>
      (tryCI lab s).map fun s1 =>
        let s2 :=
          match s1 with
          | ':' :: t => t
          | _ => s1
        let s3 := s2.drop (runLen jsIsWs s2)
        s3.take (runLen (fun c => c != '\n') s3)) text

/-- Claim C8's reading of the methods list: the located section's
content split at sentence punctuation, trimmed, fragments longer than
10 characters kept in order. -/
def specClaimMethods (text : List Char) : List (List Char) :=
  match specClaimSection methodLabels text with
  | some content =>
      ((splitOnPred sentenceDelim content).map jsTrim).filter
        (fun s => !s.isEmpty && decide (10 < s.length))
  | none => []

/-! ### Extractor lemmas -/

/-- If the leftmost-match scan fails, the matcher fails at every start
position. -/
theorem matchFirst_none {α : Type} (f : List Char → Option α) :
    ∀ s : List Char, matchFirst f s = none → ∀ i : Nat, f (List.drop i s) = none := by
  intro s
  induction s with
  | nil =>
      intro h i
      simp only [matchFirst] at h
      simpa using h
  | cons c rest ih =>
      intro h i
      simp only [matchFirst] at h
      cases hf : f (c :: rest) with
      | some g => rw [hf] at h; exact absurd h (by simp)
      | none =>
          rw [hf] at h
          cases i with
          | zero => simpa using hf
          | succ j => simpa using ih h j

/-- If the leftmost-match scan succeeds, it succeeds at some start
position at which the matcher returns the same group, and the matcher
fails at every earlier position. -/
theorem matchFirst_some {α : Type} (f : List Char → Option α) :
    ∀ (s : List Char) (g : α), matchFirst f s = some g →
      ∃ i : Nat, f (List.drop i s) = some g
        ∧ ∀ j : Nat, j < i → f (List.drop j s) = none := by
  intro s
  induction s with
  | nil =>
      intro g h
      simp only [matchFirst] at h
      exact ⟨0, by simpa using h, fun j hj => absurd hj (by omega)⟩
  | cons c rest ih =>
      intro g h
      simp only [matchFirst] at h
      cases hf : f (c :: rest) with
      | some g' =>
          rw [hf] at h
          refine ⟨0, ?_, fun j hj => absurd hj (by omega)⟩
          simpa using hf.trans h
      | none =>
          rw [hf] at h
          obtain ⟨i, hi, hlt⟩ := ih g h
          refine ⟨i + 1, by simpa using hi, fun j hj => ?_⟩
          cases j with
          | zero => simpa using hf
          | succ j' => simpa using hlt j' (by omega)

/-- Inversion for ordered alternation. -/
theorem firstSome_eq_some {α β : Type} (f : α → Option β) :
    ∀ (l : List α) (b : β), firstSome l f = some b → ∃ a ∈ l, f a = some b := by
  intro l
  induction l with
  | nil => intro b h; simp [firstSome] at h
  | cons a rest ih =>
      intro b h
      simp only [firstSome] at h
      cases hf : f a with
      | some b' =>
          rw [hf] at h
          exact ⟨a, by simp, by rw [hf]; exact h⟩
      | none =>
          rw [hf] at h
          obtain ⟨a', ha', hfa⟩ := ih b h
          exact ⟨a', by simp [ha'], hfa⟩

/-- Every character of a prefix shorter than the run satisfies the run
predicate. -/
theorem mem_take_runLen (p : Char → Bool) :
    ∀ (s : List Char) (j : Nat), j ≤ runLen p s → ∀ c ∈ s.take j, p c := by
  intro s
  induction s with
  | nil => simp
  | cons a rest ih =>
      intro j hj c hc
      cases j with
      | zero => simp at hc
      | succ j' =>
          simp only [runLen] at hj
          by_cases hp : p a
          · rw [if_pos hp] at hj
            simp only [List.take_succ_cons, List.mem_cons] at hc
            rcases hc with rfl | hc
            · exact hp
            · exact ih j' (by omega) c hc
          · rw [if_neg hp] at hj
            omega

/-- A captured section group never contains a hash character: the
capture ranges over a prefix of the hash-free run. -/
theorem sectionAt_no_hash (labels : List (List Char)) (s g : List Char)
    (h : sectionAt labels s = some g) : '#' ∉ g := by
  simp only [sectionAt] at h
  obtain ⟨lab, -, h1⟩ := firstSome_eq_some _ _ _ h
  cases hb : tryCI lab s with
  | none => rw [hb] at h1; simp at h1
  | some s1 =>
      rw [hb] at h1
      simp only [Option.some_bind] at h1
      obtain ⟨col, -, h2⟩ := firstSome_eq_some _ _ _ h1
      cases hc : tryCI col s1 with
      | none => rw [hc] at h2; simp at h2
      | some s2 =>
          rw [hc] at h2
          simp only [Option.some_bind] at h2
          obtain ⟨k, -, h3⟩ := firstSome_eq_some _ _ _ h2
          obtain ⟨j, hjmem, h4⟩ := firstSome_eq_some _ _ _ h3
          have hj : j ≤ runLen (fun c => c != '#') (s2.drop k) := by
            have := List.mem_range'_1.mp hjmem
            omega
          split at h4
          · intro hcmem
            have hall := mem_take_runLen (fun c => c != '#') (s2.drop k) j hj '#'
            have : ('#' != '#') = true := by
              apply hall
              have hg : g = (s2.drop k).take j := by
                injection h4 with h4'
                exact h4'.symm
              rw [← hg]
              exact hcmem
            simp at this
          · exact absurd h4 (by simp)

/-- Every successful metric-pattern match consumes at least one
character. -/
theorem tryMetricAt_pos (units : List (List Char)) (s : List Char) (nl tl : Nat)
    (h : tryMetricAt units s = some (nl, tl)) : 1 ≤ tl := by
  simp only [tryMetricAt] at h
  split at h
  · exact absurd h (by simp)
  · rename_i hd
    obtain ⟨ul, -, heq⟩ := Option.map_eq_some'.mp h
    injection heq with h1 h2
    omega

/-- Indices recorded by the exec loop are bounded below by the running
index. -/
theorem scanMetrics_index_le (units : List (List Char)) :
    ∀ (fuel : Nat) (s : List Char) (i : Nat) (m : Nat × Nat × Nat),
      m ∈ scanMetrics units fuel s i → i ≤ m.1 := by
  intro fuel
  induction fuel with
  | zero => intro s i m h; simp [scanMetrics] at h
  | succ f ih =>
      intro s i m h
      cases s with
      | nil => simp [scanMetrics] at h
      | cons c rest =>
          simp only [scanMetrics] at h
          cases ht : tryMetricAt units (c :: rest) with
          | some p =>
              obtain ⟨nl, tl⟩ := p
              rw [ht] at h
              simp only [List.mem_cons] at h
              rcases h with rfl | h
              · simp
              · have := ih _ _ _ h
                omega
          | none =>
              rw [ht] at h
              have := ih _ _ _ h
              omega

/-- The matches of one exec loop are recorded in strictly increasing
index order — left-to-right order of occurrence in the text. -/
theorem scanMetrics_pairwise (units : List (List Char)) :
    ∀ (fuel : Nat) (s : List Char) (i : Nat),
      (scanMetrics units fuel s i).Pairwise (fun m m' => m.1 < m'.1) := by
  intro fuel
  induction fuel with
  | zero => intro s i; simp [scanMetrics]
  | succ f ih =>
      intro s i
      cases s with
      | nil => simp [scanMetrics]
      | cons c rest =>
          simp only [scanMetrics]
          cases ht : tryMetricAt units (c :: rest) with
          | some p =>
              obtain ⟨nl, tl⟩ := p
              refine List.pairwise_cons.mpr ⟨?_, ih _ _⟩
              intro m hm
              have h1 := scanMetrics_index_le units f _ _ m hm
              have h2 := tryMetricAt_pos units (c :: rest) nl tl ht
              simp only
              omega
          | none => exact ih _ _

/-- Claim C5: the extractor is a total function (it always terminates
with a `ProcessedData` record carrying all five fields — totality and
shape are the type), and whenever a pattern fails to match, the
corresponding field is the documented default or empty value. -/
theorem spec_C5 (text : List Char) :
    (matchFirst titleAt text = none →
      (processInitialData text).title = "Research Study".toList)
    ∧ (matchFirst typeAt text = none →
      (processInitialData text).type = "Clinical Study".toList)
    ∧ (matchFirst (sectionAt methodLabels) text = none →
      (processInitialData text).methods = [])
    ∧ (matchFirst (sectionAt findingLabels) text = none →
      (processInitialData text).findings = [])
    ∧ (scanMetrics measurementUnits text.length text 0 = [] →
       scanMetrics percentUnits text.length text 0 = [] →
       scanMetrics labUnits text.length text 0 = [] →
      (processInitialData text).metrics = []) := by
  refine ⟨fun h => ?_, fun h => ?_, fun h => ?_, fun h => ?_, fun h1 h2 h3 => ?_⟩
  · simp [processInitialData, titleOf, h]
  · simp [processInitialData, typeOf, h]
  · simp [processInitialData, methodsOf, h]
  · simp [processInitialData, findingsOf, h]
  · simp [processInitialData, extractMetrics, metricPatterns, h1, h2, h3]

/-- Witness for C5 at the empty text: no pattern matches and every
field is its default or empty value. -/
theorem spec_C5_witness :
    (matchFirst titleAt ([] : List Char) = none)
    ∧ (matchFirst typeAt ([] : List Char) = none)
    ∧ (processInitialData ([] : List Char)).title = "Research Study".toList
    ∧ (processInitialData ([] : List Char)).type = "Clinical Study".toList
    ∧ (processInitialData ([] : List Char)).methods = []
    ∧ (processInitialData ([] : List Char)).findings = []
    ∧ (processInitialData ([] : List Char)).metrics = [] :=
  ⟨by decide, by decide,
    (spec_C5 []).1 (by decide), (spec_C5 []).2.1 (by decide),
    (spec_C5 []).2.2.1 (by decide), (spec_C5 []).2.2.2.1 (by decide),
    (spec_C5 []).2.2.2.2 (by decide) (by decide) (by decide)⟩

/-- Claim C6: on the example input, the findings contain the trimmed
fragment "Patients showed 45% improvement" and the metrics are exactly
one entry with value 45 and unit percent. -/
theorem spec_C6 :
    ("Patients showed 45% improvement".toList) ∈
      (processInitialData
        ("Results: Patients showed 45% improvement. Methods: Randomized control trial was used.".toList)).findings
    ∧ ∃ lab : List Char,
        (processInitialData
          ("Results: Patients showed 45% improvement. Methods: Randomized control trial was used.".toList)).metrics
          = [⟨lab, (45 : ℚ), "%".toList⟩] := by
  constructor
  · decide
  · refine ⟨"Patients showed".toList, ?_⟩
    have h : (processInitialData
        ("Results: Patients showed 45% improvement. Methods: Randomized control trial was used.".toList)).metrics
        = [⟨"Patients showed".toList, ((45 : ℕ) : ℚ), "%".toList⟩] := rfl
    rw [h]
    have h45 : ((45 : ℕ) : ℚ) = (45 : ℚ) := by norm_num
    rw [h45]

/-- Claim C7: the metrics list is the concatenation of the processed
matches of the measurement, percentage and lab-value patterns, in that
order; within each pattern the matches are recorded in strictly
increasing index order (left-to-right occurrence); and a number
matched by several patterns produces one entry per pattern, as on
"45 mg/dL", which yields a measurement entry and a lab-value entry for
the same number with no deduplication. -/
theorem spec_C7 :
    (∀ text : List Char,
      extractMetrics text =
        (scanMetrics measurementUnits text.length text 0).map
            (processMatch text ("measurement".toList))
          ++ (scanMetrics percentUnits text.length text 0).map
            (processMatch text ("percentage".toList))
          ++ (scanMetrics labUnits text.length text 0).map
            (processMatch text ("lab_value".toList)))
    ∧ (∀ (u : List (List Char)) (fuel : Nat) (s : List Char) (i : Nat),
        (scanMetrics u fuel s i).Pairwise (fun m m' => m.1 < m'.1))
    ∧ ((extractMetrics ("45 mg/dL".toList)).map (fun m => (m.value, m.unit))
        = [((45 : ℚ), "mg".toList), ((45 : ℚ), "mg/dL".toList)]) := by
  refine ⟨fun text => ?_, fun u fuel s i => scanMetrics_pairwise u fuel s i, ?_⟩
  · simp [extractMetrics, metricPatterns]
  · have h : (extractMetrics ("45 mg/dL".toList)).map (fun m => (m.value, m.unit))
        = [(((45 : ℕ) : ℚ), "mg".toList), (((45 : ℕ) : ℚ), "mg/dL".toList)] := rfl
    rw [h]
    have h45 : ((45 : ℕ) : ℚ) = (45 : ℚ) := by norm_num
    rw [h45]

/-- Counterexample to claim C8 as stated: the input contains a Methods
section whose content is longer than 10 characters, but because a hash
character precedes the end of the line the section regex cannot
complete a capture, so the extractor returns the empty methods list
while the claimed split/filter of the section content is non-empty. -/
theorem spec_C8_cex :
    (processInitialData ("Methods: alpha # beta gamma delta epsilon".toList)).methods = []
    ∧ specClaimMethods ("Methods: alpha # beta gamma delta epsilon".toList)
        = ["alpha # beta gamma delta epsilon".toList]
    ∧ (["alpha # beta gamma delta epsilon".toList] : List (List Char)) ≠ [] :=
  ⟨by decide, by decide, by decide⟩

/-- Claim C8 (amended): the methods and findings lists are the
split/trim/filter of the regex-captured section when one exists and
empty otherwise; the capture never contains a hash character (the
regex excludes it, so a hash before the line end makes the whole
extraction come back empty); and the split keeps exactly the trimmed
fragments longer than 10 characters, as a sublist — hence in original
order — of the trimmed fragments. -/
theorem spec_C8_amended (text : List Char) :
    ((processInitialData text).methods =
      (match matchFirst (sectionAt methodLabels) text with
        | some g => sectionItems g
        | none => []))
    ∧ ((processInitialData text).findings =
      (match matchFirst (sectionAt findingLabels) text with
        | some g => sectionItems g
        | none => []))
    ∧ (∀ g : List Char, matchFirst (sectionAt methodLabels) text = some g → '#' ∉ g)
    ∧ (∀ g : List Char, matchFirst (sectionAt findingLabels) text = some g → '#' ∉ g)
    ∧ (∀ g : List Char,
        (sectionItems g).Sublist ((splitOnPred sentenceDelim g).map jsTrim)
        ∧ ∀ s ∈ sectionItems g, s ≠ [] ∧ 10 < s.length) := by
  refine ⟨rfl, rfl, ?_, ?_, ?_⟩
  · intro g hg
    obtain ⟨i, hi, -⟩ := matchFirst_some _ text g hg
    exact sectionAt_no_hash _ _ _ hi
  · intro g hg
    obtain ⟨i, hi, -⟩ := matchFirst_some _ text g hg
    exact sectionAt_no_hash _ _ _ hi
  · intro g
    constructor
    · exact List.filter_sublist _
    · intro s hs
      have h := (List.mem_filter.mp hs).2
      simp only [Bool.and_eq_true, Bool.not_eq_eq_eq_not, Bool.not_true,
        decide_eq_true_eq] at h
      constructor
      · intro hnil
        rw [hnil] at h
        simp at h
      · exact h.2

/-- Witness for the amended C8 on a text with a well-formed Methods
section. -/
theorem spec_C8_amended_witness :
    (matchFirst (sectionAt methodLabels)
        ("Methods: randomized double blind trial.".toList)
      = some ("randomized double blind trial.".toList))
    ∧ (processInitialData ("Methods: randomized double blind trial.".toList)).methods
      = ["randomized double blind trial".toList]
    ∧ '#' ∉ ("randomized double blind trial.".toList) := by
  refine ⟨by decide, ?_, ?_⟩
  · rw [(spec_C8_amended ("Methods: randomized double blind trial.".toList)).1]
    decide
  · exact (spec_C8_amended ("Methods: randomized double blind trial.".toList)).2.2.1
      ("randomized double blind trial.".toList) (by decide)

/-- Counterexample to claim C9 as stated: on "redesign x" no line has a
"study type:" or "design:" label prefix, so the claim requires the
default "Clinical Study", but the code's regex finds the label
"design" inside the word "redesign" (mid-line, mid-word, no colon) and
extracts the study type "x". -/
theorem spec_C9_cex :
    (processInitialData ("redesign x".toList)).type = "x".toList
    ∧ specClaimType ("redesign x".toList) = "Clinical Study".toList
    ∧ ("x".toList : List Char) ≠ "Clinical Study".toList :=
  ⟨by decide, by decide, by decide⟩

/-- Claim C9 (amended): the title and the study type come from the
leftmost match of their regexes anywhere in the text — matches need
not start at a line beginning, the type label may occur inside a word
and its colon is optional — with the trimmed group used when it is
non-empty and the literals "Research Study" / "Clinical Study" used
when there is no match at any position or the trimmed group is
empty. -/
theorem spec_C9_amended (text : List Char) :
    ((∃ i g, titleAt (text.drop i) = some g
        ∧ (∀ j, j < i → titleAt (text.drop j) = none)
        ∧ (processInitialData text).title
          = (if jsTrim g = [] then "Research Study".toList else jsTrim g))
      ∨ ((∀ i, titleAt (text.drop i) = none)
        ∧ (processInitialData text).title = "Research Study".toList))
    ∧ ((∃ i g, typeAt (text.drop i) = some g
        ∧ (∀ j, j < i → typeAt (text.drop j) = none)
        ∧ (processInitialData text).type
          = (if jsTrim g = [] then "Clinical Study".toList else jsTrim g))
      ∨ ((∀ i, typeAt (text.drop i) = none)
        ∧ (processInitialData text).type = "Clinical Study".toList)) := by
  constructor
  · cases hm : matchFirst titleAt text with
    | some g =>
        left
        obtain ⟨i, hi, hlt⟩ := matchFirst_some _ text g hm
        exact ⟨i, g, hi, hlt, by simp [processInitialData, titleOf, hm]⟩
    | none =>
        right
        exact ⟨matchFirst_none _ text hm, by simp [processInitialData, titleOf, hm]⟩
  · cases hm : matchFirst typeAt text with
    | some g =>
        left
        obtain ⟨i, hi, hlt⟩ := matchFirst_some _ text g hm
        exact ⟨i, g, hi, hlt, by simp [processInitialData, typeOf, hm]⟩
    | none =>
        right
        exact ⟨matchFirst_none _ text hm, by simp [processInitialData, typeOf, hm]⟩

/-- Witness for the amended C9: its instantiation at the
counterexample text. -/
theorem spec_C9_amended_witness :
    ((∃ i g, titleAt (("redesign x".toList).drop i) = some g
        ∧ (∀ j, j < i → titleAt (("redesign x".toList).drop j) = none)
        ∧ (processInitialData ("redesign x".toList)).title
          = (if jsTrim g = [] then "Research Study".toList else jsTrim g))
      ∨ ((∀ i, titleAt (("redesign x".toList).drop i) = none)
        ∧ (processInitialData ("redesign x".toList)).title = "Research Study".toList))
    ∧ ((∃ i g, typeAt (("redesign x".toList).drop i) = some g
        ∧ (∀ j, j < i → typeAt (("redesign x".toList).drop j) = none)
        ∧ (processInitialData ("redesign x".toList)).type
          = (if jsTrim g = [] then "Clinical Study".toList else jsTrim g))
      ∨ ((∀ i, typeAt (("redesign x".toList).drop i) = none)
        ∧ (processInitialData ("redesign x".toList)).type = "Clinical Study".toList)) :=
  spec_C9_amended ("redesign x".toList)

/-- Claim C10: when the trimmed context of the preceding 50-character
window is empty, the metric label is not empty — it falls back to the
capitalized pattern type name: "Measurement", "Percentage" or
"Lab_value". -/
theorem spec_C10 (text : List Char) (i nl tl : Nat)
    (h : contextAt text i = []) :
    ((processMatch text ("measurement".toList) (i, nl, tl)).label = "Measurement".toList
      ∧ (processMatch text ("measurement".toList) (i, nl, tl)).label ≠ [])
    ∧ ((processMatch text ("percentage".toList) (i, nl, tl)).label = "Percentage".toList
      ∧ (processMatch text ("percentage".toList) (i, nl, tl)).label ≠ [])
    ∧ ((processMatch text ("lab_value".toList) (i, nl, tl)).label = "Lab_value".toList
      ∧ (processMatch text ("lab_value".toList) (i, nl, tl)).label ≠ []) := by
  refine ⟨⟨?_, ?_⟩, ⟨?_, ?_⟩, ⟨?_, ?_⟩⟩ <;>
    simp only [processMatch, h, if_pos] <;> decide

/-- Witness for C10: the match of "45%" at index 0 has an empty window,
and its metric label is "Percentage". -/
theorem spec_C10_witness :
    contextAt ("45%".toList) 0 = []
    ∧ (processMatch ("45%".toList) ("percentage".toList) (0, 2, 3)).label
      = "Percentage".toList :=
  ⟨by decide, ((spec_C10 ("45%".toList) 0 2 3 (by decide)).2.1).1⟩

end Mvp
